import Mathlib

/-!
Verification development for the dfsu visualization pipeline repository.

The core of the repository is `dfs0_pipeline.build_seven_day_forecast_data`
(src/data_api/pipeline_api.py), which

  1. obtains a dict mapping date-string keys (format YYYYMMDDHH) to dfs0 file
     paths from the file query collaborator,
  2. reads the reference instant from the ambient clock (datetime.today()),
  3. parses every key with datetime.strptime(key, "%Y%m%d%H") (a ValueError
     from a malformed key propagates),
  4. keeps the parsed dates with (date - current_date).days <= 7 and
     (date - current_date).days > 0 (timedelta.days is a floor),
  5. sorts the kept dates ascending and formats them back to YYYYMMDDHH keys,
  6. ingests forecast_dict[key] for each key in that order (an exception from
     the ingestion engine propagates, and the list is fully built before the
     try block), and
  7. concatenates the resulting dataframes with pd.concat inside a
     try/except ValueError that prints and returns None when the list is
     empty.

This file shallow-embeds that method over an explicit calendar model of the
Python datetime library (proleptic Gregorian calendar, second granularity;
`datetime.date.toordinal` day numbering, day 1 = 0001-01-01).  The external
collaborators are embedded as parameters: the catalog dict is an ordered
association list (Python dicts iterate in insertion order), and the ingestion
engine is a function from paths to `Option` dataframes (`none` models an
exception raised by the engine).  A dataframe is modelled as a list of rows
over an abstract row type, so `pd.concat` is flattening, and it raises
(returns `none`) exactly on the empty list.

The theta-conversion fragment of `dashboard.create_polar_plot`
(src/data_api/dfs_visualization_api.py) is embedded separately: a pandas
DataFrame is a list of columns, `DataFrame.apply` applies the given function
to each column and propagates the first exception, and the lambda
`lambda x: math.degree(x)` raises AttributeError whenever it is invoked
because the math module has no attribute `degree` (the function is named
`math.degrees`).
-/

namespace DfsuPipeline

/-! ### Calendar model (Python datetime, proleptic Gregorian) -/

/-- Leap year test of the Gregorian calendar, as in Python `calendar.isleap`. -/
def isLeapYear (y : Nat) : Bool :=
  y % 4 == 0 && (y % 100 != 0 || y % 400 == 0)

/-- One extra day in a leap year, zero otherwise. -/
def leapNat (y : Nat) : Nat := if isLeapYear y then 1 else 0

/-- Number of days in month `m` of year `y` (Python `calendar.monthrange`). -/
def daysInMonth (y m : Nat) : Nat :=
  match m with
  | 1 => 31 | 2 => 28 + leapNat y | 3 => 31 | 4 => 30 | 5 => 31 | 6 => 30
  | 7 => 31 | 8 => 31 | 9 => 30 | 10 => 31 | 11 => 30 | 12 => 31
  | _ => 0

/-- Days in year `y` that precede the first day of month `m`
(Python `datetime._days_before_month`). -/
def daysBeforeMonth (y m : Nat) : Nat :=
  match m with
  | 1 => 0 | 2 => 31 | 3 => 59 + leapNat y | 4 => 90 + leapNat y | 5 => 120 + leapNat y
  | 6 => 151 + leapNat y | 7 => 181 + leapNat y | 8 => 212 + leapNat y | 9 => 243 + leapNat y
  | 10 => 273 + leapNat y | 11 => 304 + leapNat y | 12 => 334 + leapNat y
  | _ => 0

/-- Days before January 1st of year `y`
(Python `datetime._days_before_year`). -/
def daysBeforeYear (y : Nat) : Nat :=
  (y-1)*365 + (y-1)/4 - (y-1)/100 + (y-1)/400

/-- Proleptic Gregorian ordinal of a date, day 1 = 0001-01-01
(Python `datetime.date.toordinal`). -/
def toOrdinal (y m d : Nat) : Nat :=
  daysBeforeYear y + daysBeforeMonth y m + d

/-- A parsed timestamp: year, month, day, hour. -/
abbrev DT : Type := Nat × Nat × Nat × Nat

/-- The instant a parsed timestamp denotes, as seconds on the proleptic
Gregorian time line.  Differences of these values are exactly the
`total_seconds` of the Python timedelta between the two datetimes. -/
def dtSeconds (t : DT) : Int :=
  ((toOrdinal t.1 t.2.1 t.2.2.1) * 86400 + t.2.2.2 * 3600 : Nat)

/-- The field ranges Python `datetime` accepts: year 1..9999, month 1..12,
day 1..days-in-month, hour 0..23. -/
def ValidDT (t : DT) : Prop :=
  1 ≤ t.1 ∧ t.1 ≤ 9999 ∧ 1 ≤ t.2.1 ∧ t.2.1 ≤ 12 ∧
  1 ≤ t.2.2.1 ∧ t.2.2.1 ≤ daysInMonth t.1 t.2.1 ∧ t.2.2.2 ≤ 23

instance (t : DT) : Decidable (ValidDT t) := by
  unfold ValidDT; infer_instance

/-! ### Key parsing and formatting -/

/-- ASCII digit test, as in the `\d` character class used by
`_strptime`. -/
def isDigitChar (c : Char) : Bool := 48 ≤ c.toNat && c.toNat ≤ 57

/-- Numeric value of an ASCII digit. -/
def digitVal (c : Char) : Nat := c.toNat - 48

/-- ASCII digit character for a value in 0..9. -/
def digitChar (n : Nat) : Char := Char.ofNat (48 + n)

/-- The datetime fields encoded by the ten digit characters of a canonical
key. -/
def keyDigitsDT (y1 y2 y3 y4 m1 m2 d1 d2 h1 h2 : Char) : DT :=
  (((digitVal y1 * 10 + digitVal y2) * 10 + digitVal y3) * 10 + digitVal y4,
   digitVal m1 * 10 + digitVal m2,
   digitVal d1 * 10 + digitVal d2,
   digitVal h1 * 10 + digitVal h2)

/-- Embedding of `datetime.strptime(date_key, "%Y%m%d%H")` on catalog keys.
On a ten-character digit string, CPython `_strptime` matches exactly four
digits for `%Y` and (to consume all ten characters) exactly two digits for
each of `%m`, `%d` and `%H`, and the datetime constructor then validates the
field ranges, so parsing succeeds exactly on canonical keys; every other
string raises ValueError (`none` here).  Shorter all-digit strings that the
lenient regex could match non-canonically are treated as parse failures. -/
def strptime_YmdH (s : String) : Option DT :=
  match s.data with
  | [y1, y2, y3, y4, m1, m2, d1, d2, h1, h2] =>
    if isDigitChar y1 && isDigitChar y2 && isDigitChar y3 && isDigitChar y4 &&
       isDigitChar m1 && isDigitChar m2 && isDigitChar d1 && isDigitChar d2 &&
       isDigitChar h1 && isDigitChar h2 then
      if ValidDT (keyDigitsDT y1 y2 y3 y4 m1 m2 d1 d2 h1 h2) then
        some (keyDigitsDT y1 y2 y3 y4 m1 m2 d1 d2 h1 h2)
      else none
    else none
  | _ => none

/-- Two-digit zero-padded decimal rendering. -/
def pad2 (n : Nat) : List Char := [digitChar (n / 10 % 10), digitChar (n % 10)]

/-- Four-digit zero-padded decimal rendering. -/
def pad4 (n : Nat) : List Char :=
  [digitChar (n / 1000 % 10), digitChar (n / 100 % 10), digitChar (n / 10 % 10),
   digitChar (n % 10)]

/-- Embedding of `date.strftime("%Y%m%d%H")`. -/
def strftime_YmdH (t : DT) : String :=
  ⟨pad4 t.1 ++ pad2 t.2.1 ++ pad2 t.2.2.1 ++ pad2 t.2.2.2⟩

/-! ### The forecast assembly pipeline -/

/-- Result of one call of `build_seven_day_forecast_data`.
`ok` is a returned dataframe; `noneReturn` is the implicit `None` returned
after the except-branch; the remaining constructors are uncaught exceptions:
the ValueError raised by `strptime` on a malformed key, the KeyError a dict
lookup would raise, and an exception raised by the dfs0 ingestion engine
while ingesting the file of the given key. -/
inductive BuildOutcome (ρ : Type) where
  | ok (forecast_df : List ρ)
  | noneReturn
  | keyParseError (key : String)
  | dictKeyError (key : String)
  | ingestionError (key : String)
  deriving DecidableEq

/-- Parse a list of keys left to right, stopping at the first key on which
`strptime` raises, as the list comprehension on lines 82-83 does. -/
def parseKeys : List String → Except String (List DT)
  | [] => .ok []
  | k :: ks =>
    match strptime_YmdH k with
    | none => .error k
    | some t =>
      match parseKeys ks with
      | .error e => .error e
      | .ok ts => .ok (t :: ts)

/-- Embedding of `(date - current_date).days`: the `days` field of a Python
timedelta is the floor of its total seconds divided by 86400. -/
def elapsedDays (date : DT) (current_date : Int) : Int :=
  Int.fdiv (dtSeconds date - current_date) 86400

/-- The filter on lines 87-92:
`(date - current_date).days <= 7 and (date - current_date).days > 0`. -/
def inWindow (current_date : Int) (date : DT) : Bool :=
  decide (elapsedDays date current_date ≤ 7) && decide (0 < elapsedDays date current_date)

/-- Sorting relation used on line 95: Python compares datetime objects
chronologically. -/
def dtLE (a b : DT) : Prop := dtSeconds a ≤ dtSeconds b

instance : DecidableRel dtLE :=
  fun a b => inferInstanceAs (Decidable (dtSeconds a ≤ dtSeconds b))

instance : IsTotal DT dtLE := ⟨fun a b => Int.le_total _ _⟩

instance : IsTrans DT dtLE := ⟨fun _ _ _ h1 h2 => le_trans h1 h2⟩

/-- Lines 82-98 of pipeline_api.py: parse the dict keys, keep the dates in
the seven-day window, sort them ascending, and format them back to key
strings. -/
def selectedKeys (date_keys : List String) (current_date : Int) :
    Except String (List String) :=
  match parseKeys date_keys with
  | .error k => .error k
  | .ok date_lst =>
    .ok ((List.insertionSort dtLE (date_lst.filter (inWindow current_date))).map
      strftime_YmdH)

/-- Python dict lookup `forecast_dict[date_key]` on the association list. -/
def lookupPath {π : Type} (forecast_dict : List (String × π)) (k : String) :
    Option π :=
  (forecast_dict.find? (fun e => e.1 == k)).map Prod.snd

/-- Lines 103-108: build the list of ingested dataframes in selected-key
order; the first exception (KeyError from the dict lookup, or anything
raised by `dfs0_ingestion_engine`) aborts the whole comprehension. -/
def ingestSelected {π ρ : Type} (forecast_dict : List (String × π))
    (ingest : π → Option (List ρ)) : List String → Except (BuildOutcome ρ) (List (List ρ))
  | [] => .ok []
  | k :: ks =>
    match lookupPath forecast_dict k with
    | none => .error (.dictKeyError k)
    | some p =>
      match ingest p with
      | none => .error (.ingestionError k)
      | some df =>
        match ingestSelected forecast_dict ingest ks with
        | .error e => .error e
        | .ok dfs => .ok (df :: dfs)

/-- Embedding of `pd.concat`: raises ValueError (`none`) exactly on an empty
list of dataframes, otherwise concatenates the fragments preserving order. -/
def pd_concat {ρ : Type} (dfs : List (List ρ)) : Option (List ρ) :=
  if dfs.isEmpty then none else some dfs.flatten

/-- Embedding of `dfs0_pipeline.build_seven_day_forecast_data`, lines 74-119
of pipeline_api.py.  `forecast_dict` is the dict returned by the file query
collaborator, `current_date` the value `datetime.today()` returned for this
invocation, and `ingest` the ingestion engine
(`fun p => dfs0_ingestion_engine(p).main_df`, `none` meaning the engine
raised).  The try/except on lines 111-119 wraps only `pd.concat`, so it
catches exactly the ValueError of empty concatenation and returns `None`. -/
def build_seven_day_forecast_data {π ρ : Type} (forecast_dict : List (String × π))
    (current_date : Int) (ingest : π → Option (List ρ)) : BuildOutcome ρ :=
  match selectedKeys (forecast_dict.map Prod.fst) current_date with
  | .error k => .keyParseError k
  | .ok forecast_date_lst =>
    match ingestSelected forecast_dict ingest forecast_date_lst with
    | .error e => e
    | .ok forecast_df_lst =>
      match pd_concat forecast_df_lst with
      | some forecast_df => .ok forecast_df
      | none => .noneReturn

/-- The method takes no reference instant: line 77 reads
`current_date = datetime.today()` from the ambient clock.  `clock n` is the
value the ambient clock yields at the n-th invocation, so one invocation of
the method is `buildAtClock clock n`. -/
def buildAtClock {π ρ : Type} (clock : Nat → Int) (n : Nat)
    (forecast_dict : List (String × π)) (ingest : π → Option (List ρ)) :
    BuildOutcome ρ :=
  build_seven_day_forecast_data forecast_dict (clock n) ingest

/-- Reference instant 2024-03-01T00:00 used by the concrete scenarios. -/
def refInstant : Int := dtSeconds (2024, 3, 1, 0)

/-! ### The theta conversion of dashboard.create_polar_plot -/

/-- Embedding of pandas `DataFrame.apply`: the function is applied to each
column in order and the first exception propagates; on a frame with no
columns the function is never invoked. -/
def df_apply {ρ : Type} (f : List ρ → Option (List ρ)) :
    List (List ρ) → Option (List (List ρ))
  | [] => some []
  | c :: cs =>
    match f c with
    | none => none
    | some c2 =>
      match df_apply f cs with
      | none => none
      | some cs2 => some (c2 :: cs2)

/-- The function `lambda x : math.degree(x)` of line 389: the math module
has no attribute `degree` (the radians-to-degrees function is
`math.degrees`), so every invocation of the lambda raises AttributeError
before touching its argument. -/
def math_degree_lambda {ρ : Type} : List ρ → Option (List ρ) := fun _ => none

/-- Lines 387-391 of dfs_visualization_api.py:
try theta = theta.apply(lambda x : math.degree(x)) except: pass.
The bare except catches any exception from the apply and leaves theta
untouched in that case. -/
def convert_theta {ρ : Type} (theta : List (List ρ)) : List (List ρ) :=
  match df_apply math_degree_lambda theta with
  | some t => t
  | none => theta

instance {ε α : Type} [DecidableEq ε] [DecidableEq α] : DecidableEq (Except ε α) := fun x y =>
  match x, y with
  | .error a, .error b =>
    if h : a = b then .isTrue (by rw [h]) else .isFalse (fun hc => h (by injection hc))
  | .error _, .ok _ => .isFalse (fun hc => Except.noConfusion hc)
  | .ok _, .error _ => .isFalse (fun hc => Except.noConfusion hc)
  | .ok a, .ok b =>
    if h : a = b then .isTrue (by rw [h]) else .isFalse (fun hc => h (by injection hc))

/-! ### Lemmas about key parsing -/

theorem strptime_valid {s : String} {t : DT} (h : strptime_YmdH s = some t) :
    ValidDT t := by
  unfold strptime_YmdH at h
  split at h
  · split at h
    · split at h
      · injection h with h2
        subst h2
        assumption
      · exact Option.noConfusion h
    · exact Option.noConfusion h
  · exact Option.noConfusion h

theorem isDigitChar_bounds {c : Char} (hc : isDigitChar c = true) :
    48 ≤ c.toNat ∧ c.toNat ≤ 57 := by
  simpa [isDigitChar] using hc

theorem digitVal_le {c : Char} (hc : isDigitChar c = true) : digitVal c ≤ 9 := by
  have h := isDigitChar_bounds hc
  unfold digitVal
  omega

theorem digitChar_digitVal {c : Char} (hc : isDigitChar c = true) :
    digitChar (digitVal c) = c := by
  have h := isDigitChar_bounds hc
  have h2 : 48 + digitVal c = c.toNat := by unfold digitVal; omega
  unfold digitChar
  rw [h2, Char.ofNat_toNat]

theorem pad2_digits {a b : Nat} (ha : a ≤ 9) (hb : b ≤ 9) :
    pad2 (a * 10 + b) = [digitChar a, digitChar b] := by
  have h1 : (a * 10 + b) / 10 % 10 = a := by omega
  have h2 : (a * 10 + b) % 10 = b := by omega
  simp [pad2, h1, h2]

theorem pad4_digits {a b c d : Nat} (ha : a ≤ 9) (hb : b ≤ 9) (hc : c ≤ 9) (hd : d ≤ 9) :
    pad4 (((a * 10 + b) * 10 + c) * 10 + d) =
      [digitChar a, digitChar b, digitChar c, digitChar d] := by
  have h1 : (((a * 10 + b) * 10 + c) * 10 + d) / 1000 % 10 = a := by omega
  have h2 : (((a * 10 + b) * 10 + c) * 10 + d) / 100 % 10 = b := by omega
  have h3 : (((a * 10 + b) * 10 + c) * 10 + d) / 10 % 10 = c := by omega
  have h4 : (((a * 10 + b) * 10 + c) * 10 + d) % 10 = d := by omega
  simp [pad4, h1, h2, h3, h4]

theorem strftime_strptime {s : String} {t : DT} (h : strptime_YmdH s = some t) :
    strftime_YmdH t = s := by
  unfold strptime_YmdH at h
  split at h
  case h_2 => exact Option.noConfusion h
  case h_1 y1 y2 y3 y4 m1 m2 d1 d2 h1 h2 heq =>
    split at h
    case isFalse => exact Option.noConfusion h
    case isTrue hdig =>
      split at h
      case isFalse => exact Option.noConfusion h
      case isTrue hv =>
        injection h with h3
        subst h3
        simp only [Bool.and_eq_true] at hdig
        obtain ⟨⟨⟨⟨⟨⟨⟨⟨⟨hy1, hy2⟩, hy3⟩, hy4⟩, hm1⟩, hm2⟩, hd1⟩, hd2⟩, hh1⟩, hh2⟩ := hdig
        apply String.ext
        show pad4 (((digitVal y1 * 10 + digitVal y2) * 10 + digitVal y3) * 10 + digitVal y4) ++
          pad2 (digitVal m1 * 10 + digitVal m2) ++ pad2 (digitVal d1 * 10 + digitVal d2) ++
          pad2 (digitVal h1 * 10 + digitVal h2) = s.data
        rw [heq]
        rw [pad4_digits (digitVal_le hy1) (digitVal_le hy2) (digitVal_le hy3) (digitVal_le hy4)]
        rw [pad2_digits (digitVal_le hm1) (digitVal_le hm2)]
        rw [pad2_digits (digitVal_le hd1) (digitVal_le hd2)]
        rw [pad2_digits (digitVal_le hh1) (digitVal_le hh2)]
        rw [digitChar_digitVal hy1, digitChar_digitVal hy2, digitChar_digitVal hy3,
          digitChar_digitVal hy4, digitChar_digitVal hm1, digitChar_digitVal hm2,
          digitChar_digitVal hd1, digitChar_digitVal hd2, digitChar_digitVal hh1,
          digitChar_digitVal hh2]
        rfl

/-- Parsing is injective on keys it accepts: two keys parsing to the same
datetime are the same string. -/
theorem strptime_inj {s1 s2 : String} {t : DT} (h1 : strptime_YmdH s1 = some t)
    (h2 : strptime_YmdH s2 = some t) : s1 = s2 := by
  rw [← strftime_strptime h1, ← strftime_strptime h2]

theorem parseKeys_ok_forall₂ : ∀ {ks : List String} {ts : List DT},
    parseKeys ks = .ok ts → List.Forall₂ (fun k t => strptime_YmdH k = some t) ks ts := by
  intro ks
  induction ks with
  | nil =>
    intro ts h
    injection h with h2
    subst h2
    exact List.Forall₂.nil
  | cons k ks ih =>
    intro ts h
    unfold parseKeys at h
    cases hp : strptime_YmdH k with
    | none => rw [hp] at h; exact Except.noConfusion h
    | some t =>
      rw [hp] at h
      cases hr : parseKeys ks with
      | error e => rw [hr] at h; exact Except.noConfusion h
      | ok ts2 =>
        rw [hr] at h
        injection h with h2
        subst h2
        exact List.Forall₂.cons hp (ih hr)

theorem parseKeys_error_mem : ∀ {ks : List String} {k : String},
    parseKeys ks = .error k → k ∈ ks ∧ strptime_YmdH k = none := by
  intro ks
  induction ks with
  | nil => intro k h; exact Except.noConfusion h
  | cons k0 ks ih =>
    intro k h
    unfold parseKeys at h
    cases hp : strptime_YmdH k0 with
    | none =>
      rw [hp] at h
      injection h with h2
      subst h2
      exact ⟨List.mem_cons_self _ _, hp⟩
    | some t =>
      rw [hp] at h
      cases hr : parseKeys ks with
      | error e =>
        rw [hr] at h
        injection h with h2
        subst h2
        have := ih hr
        exact ⟨List.mem_cons_of_mem _ this.1, this.2⟩
      | ok ts => rw [hr] at h; exact Except.noConfusion h

theorem forall₂_mem_left {α β : Type} {R : α → β → Prop} {l1 : List α} {l2 : List β}
    (h : List.Forall₂ R l1 l2) {a : α} (ha : a ∈ l1) : ∃ b ∈ l2, R a b := by
  induction h with
  | nil => exact absurd ha (List.not_mem_nil _)
  | cons hr _ ih =>
    rcases List.mem_cons.mp ha with h1 | h1
    · subst h1; exact ⟨_, List.mem_cons_self _ _, hr⟩
    · obtain ⟨b, hb, hrb⟩ := ih h1
      exact ⟨b, List.mem_cons_of_mem _ hb, hrb⟩

theorem forall₂_mem_right {α β : Type} {R : α → β → Prop} {l1 : List α} {l2 : List β}
    (h : List.Forall₂ R l1 l2) {b : β} (hb : b ∈ l2) : ∃ a ∈ l1, R a b := by
  induction h with
  | nil => exact absurd hb (List.not_mem_nil _)
  | cons hr _ ih =>
    rcases List.mem_cons.mp hb with h1 | h1
    · subst h1; exact ⟨_, List.mem_cons_self _ _, hr⟩
    · obtain ⟨a, ha, hra⟩ := ih h1
      exact ⟨a, List.mem_cons_of_mem _ ha, hra⟩

/-- If some key in the list fails to parse, `parseKeys` reports a failing
key (the first one). -/
theorem parseKeys_error_of_bad {ks : List String} {k : String} (hk : k ∈ ks)
    (hbad : strptime_YmdH k = none) :
    ∃ e ∈ ks, strptime_YmdH e = none ∧ parseKeys ks = .error e := by
  cases hpk : parseKeys ks with
  | ok ts =>
    obtain ⟨t, _, ht⟩ := forall₂_mem_left (parseKeys_ok_forall₂ hpk) hk
    rw [hbad] at ht
    exact Option.noConfusion ht
  | error e =>
    have h := parseKeys_error_mem hpk
    exact ⟨e, h.1, h.2, rfl⟩

/-! ### Calendar arithmetic: the instant of a valid datetime determines it -/

set_option maxHeartbeats 1000000 in
theorem daysBeforeYear_succ (y : Nat) (hy : 1 ≤ y) :
    daysBeforeYear (y+1) = daysBeforeYear y + 365 + leapNat y := by
  have hcond : (isLeapYear y = true) ∨ (isLeapYear y = false) := by
    cases isLeapYear y <;> simp
  obtain ⟨z, rfl⟩ : ∃ z, y = z + 1 := ⟨y - 1, by omega⟩
  unfold daysBeforeYear
  simp only [Nat.add_sub_cancel]
  rcases hcond with hc | hc
  · have hl : leapNat (z+1) = 1 := by simp [leapNat, hc]
    rw [hl]
    have h4 : (z+1) % 4 = 0 ∧ ((z+1) % 100 ≠ 0 ∨ (z+1) % 400 = 0) := by
      simpa [isLeapYear] using hc
    rcases h4 with ⟨h4a, h4b | h4b⟩ <;> omega
  · have hl : leapNat (z+1) = 0 := by simp [leapNat, hc]
    rw [hl]
    have h4 : ¬ ((z+1) % 4 = 0 ∧ ((z+1) % 100 ≠ 0 ∨ (z+1) % 400 = 0)) := by
      simpa [isLeapYear] using hc
    omega

theorem daysBeforeYear_mono : ∀ {a b : Nat}, a ≤ b → daysBeforeYear a ≤ daysBeforeYear b := by
  intro a b h
  induction b with
  | zero =>
    have h0 : a = 0 := Nat.le_zero.mp h
    subst h0
    exact Nat.le_refl _
  | succ n ih =>
    rcases Nat.lt_or_ge a (n+1) with hlt | hge
    · have h1 := ih (Nat.lt_succ_iff.mp hlt)
      rcases Nat.eq_zero_or_pos n with h0 | hpos
      · subst h0; unfold daysBeforeYear; omega
      · rw [daysBeforeYear_succ n hpos]; omega
    · have h2 : a = n+1 := Nat.le_antisymm h hge
      subst h2
      exact Nat.le_refl _

theorem month_bound (y m d : Nat) (h1 : 1 ≤ m) (h2 : m ≤ 12) (h3 : d ≤ daysInMonth y m) :
    daysBeforeMonth y m + d ≤ 365 + leapNat y := by
  interval_cases m <;> simp only [daysBeforeMonth, daysInMonth] at h3 ⊢ <;> omega

theorem month_day_lt (y m d m2 d2 : Nat) (h1 : 1 ≤ m) (h2 : m < m2) (h3 : m2 ≤ 12)
    (h4 : d ≤ daysInMonth y m) (h5 : 1 ≤ d2) :
    daysBeforeMonth y m + d < daysBeforeMonth y m2 + d2 := by
  have hm11 : m ≤ 11 := by omega
  interval_cases m <;> interval_cases m2 <;>
    simp only [daysBeforeMonth, daysInMonth] at h4 ⊢ <;> omega

theorem toOrdinal_lt_of_year_lt {y m d y2 m2 d2 : Nat} (hy : 1 ≤ y) (h : y < y2)
    (h1 : 1 ≤ m) (h2 : m ≤ 12) (h3 : d ≤ daysInMonth y m) (h4 : 1 ≤ d2) :
    toOrdinal y m d < toOrdinal y2 m2 d2 := by
  have hub := month_bound y m d h1 h2 h3
  have he : daysBeforeYear (y+1) = daysBeforeYear y + 365 + leapNat y :=
    daysBeforeYear_succ y hy
  have hm : daysBeforeYear (y+1) ≤ daysBeforeYear y2 := daysBeforeYear_mono h
  unfold toOrdinal
  omega

theorem dtSeconds_inj {a b : DT} (ha : ValidDT a) (hb : ValidDT b)
    (h : dtSeconds a = dtSeconds b) : a = b := by
  rcases a with ⟨y, m, d, hr⟩
  rcases b with ⟨y2, m2, d2, hr2⟩
  unfold ValidDT at ha hb
  simp only at ha hb
  obtain ⟨hy1, hy2, hm1, hm2, hd1, hd2, hh1⟩ := ha
  obtain ⟨gy1, gy2, gm1, gm2, gd1, gd2, gh1⟩ := hb
  unfold dtSeconds at h
  simp only at h
  have hn : toOrdinal y m d * 86400 + hr * 3600 = toOrdinal y2 m2 d2 * 86400 + hr2 * 3600 := by
    exact_mod_cast h
  have hsplit : toOrdinal y m d = toOrdinal y2 m2 d2 ∧ hr = hr2 := by omega
  obtain ⟨hord, hreq⟩ := hsplit
  subst hreq
  rcases Nat.lt_trichotomy y y2 with hy | hy | hy
  · exact absurd hord (Nat.ne_of_lt (toOrdinal_lt_of_year_lt hy1 hy hm1 hm2 hd2 gd1))
  · subst hy
    have hmon : daysBeforeMonth y m + d = daysBeforeMonth y m2 + d2 := by
      unfold toOrdinal at hord
      omega
    rcases Nat.lt_trichotomy m m2 with hm | hm | hm
    · exact absurd hmon (Nat.ne_of_lt (month_day_lt y m d m2 d2 hm1 hm gm2 hd2 gd1))
    · subst hm
      have hdeq : d = d2 := by omega
      subst hdeq
      rfl
    · exact absurd hmon.symm (Nat.ne_of_lt (month_day_lt y m2 d2 m d gm1 hm hm2 gd2 hd1))
  · exact absurd hord.symm (Nat.ne_of_lt (toOrdinal_lt_of_year_lt gy1 hy gm1 gm2 gd2 hd1))

/-! ### Lemmas about the window selection step -/

/-- Membership in the selected-key list: exactly the catalog keys whose
parsed date passes the window filter. -/
theorem mem_selectedKeys_iff {date_keys : List String} {current_date : Int}
    {out : List String} (h : selectedKeys date_keys current_date = .ok out) (k : String) :
    k ∈ out ↔ k ∈ date_keys ∧
      ∃ t, strptime_YmdH k = some t ∧ inWindow current_date t = true := by
  unfold selectedKeys at h
  cases hpk : parseKeys date_keys with
  | error e => rw [hpk] at h; exact Except.noConfusion h
  | ok ts =>
    rw [hpk] at h
    injection h with h2
    subst h2
    have hf := parseKeys_ok_forall₂ hpk
    constructor
    · intro hk
      obtain ⟨t, ht, hfmt⟩ := List.mem_map.mp hk
      have ht2 : t ∈ ts.filter (inWindow current_date) :=
        ((List.perm_insertionSort dtLE _).mem_iff).mp ht
      have ht3 := List.mem_filter.mp ht2
      obtain ⟨k0, hk0, hpk0⟩ := forall₂_mem_right hf ht3.1
      have hkk : strftime_YmdH t = k0 := strftime_strptime hpk0
      rw [← hfmt, hkk]
      exact ⟨hk0, t, hpk0, ht3.2⟩
    · rintro ⟨hk, t, hpt, hw⟩
      obtain ⟨t2, ht2, hpt2⟩ := forall₂_mem_left hf hk
      have heq : t2 = t := by
        rw [hpt] at hpt2
        injection hpt2 with h3
        exact h3.symm
      subst heq
      apply List.mem_map.mpr
      refine ⟨t2, ?_, strftime_strptime hpt⟩
      exact ((List.perm_insertionSort dtLE _).mem_iff).mpr
        (List.mem_filter.mpr ⟨ht2, hw⟩)

/-- When every key parses, `parseKeys` is the obvious map. -/
theorem parseKeys_eq_map {ks : List String}
    (h : ∀ k ∈ ks, strptime_YmdH k ≠ none) :
    parseKeys ks = .ok (ks.map (fun k => (strptime_YmdH k).getD (1, 1, 1, 0))) := by
  induction ks with
  | nil => rfl
  | cons k ks ih =>
    have hk := h k (List.mem_cons_self _ _)
    cases hp : strptime_YmdH k with
    | none => exact absurd hp hk
    | some t =>
      unfold parseKeys
      rw [hp, ih (fun k2 hk2 => h k2 (List.mem_cons_of_mem _ hk2))]
      simp [hp]

/-- Keys of a successfully parsed list all parse. -/
theorem parseKeys_ok_all_parse {ks : List String} {ts : List DT}
    (h : parseKeys ks = .ok ts) : ∀ k ∈ ks, strptime_YmdH k ≠ none := by
  intro k hk hbad
  obtain ⟨t, _, ht⟩ := forall₂_mem_left (parseKeys_ok_forall₂ h) hk
  rw [hbad] at ht
  exact Option.noConfusion ht

/-- Distinct keys parse to distinct datetimes (parsing is injective). -/
theorem forall₂_parse_pairwise_ne {ks : List String} {ts : List DT} (hnd : ks.Nodup)
    (hf : List.Forall₂ (fun k t => strptime_YmdH k = some t) ks ts) :
    List.Pairwise (fun a b => a ≠ b) ts := by
  induction hf with
  | nil => exact List.Pairwise.nil
  | cons hr hf2 ih =>
    rename_i k t ks2 ts2
    have hnd2 := List.nodup_cons.mp hnd
    refine List.Pairwise.cons ?_ (ih hnd2.2)
    intro t2 ht2 heq
    subst heq
    obtain ⟨k2, hk2, hpk2⟩ := forall₂_mem_right hf2 ht2
    have hkk : k = k2 := strptime_inj hr hpk2
    exact hnd2.1 (hkk ▸ hk2)

/-- Strict chronological sorting relation on parsed datetimes. -/
def dtSecLT (a b : DT) : Prop := dtSeconds a < dtSeconds b

instance : IsAntisymm DT dtSecLT :=
  ⟨fun _ _ h1 h2 => absurd (lt_trans h1 h2) (lt_irrefl _)⟩

theorem sorted_strict_of_pairwise {ts : List DT} (hs : List.Sorted dtLE ts)
    (hpw : List.Pairwise (fun a b => a ≠ b) ts) (hval : ∀ t ∈ ts, ValidDT t) :
    List.Sorted dtSecLT ts := by
  have hand := List.Pairwise.and hs hpw
  refine hand.imp_of_mem ?_
  intro a b ha hb hab
  exact lt_of_le_of_ne hab.1 (fun he => hab.2 (dtSeconds_inj (hval a ha) (hval b hb) he))

/-- The instant a key string decodes to (arbitrary default on strings that
do not parse; it is only used on keys that do). -/
def keySeconds (k : String) : Int := dtSeconds ((strptime_YmdH k).getD (1, 1, 1, 0))

/-- Facts about the sorted filtered date list built from a duplicate-free
key list: it is strictly chronologically sorted, and formatting then
re-parsing any of its members is the identity. -/
theorem sortFacts {ks : List String} {ts : List DT} {cur : Int} (hnd : ks.Nodup)
    (hpk : parseKeys ks = .ok ts) :
    List.Sorted dtSecLT (List.insertionSort dtLE (ts.filter (inWindow cur))) ∧
    ∀ t ∈ List.insertionSort dtLE (ts.filter (inWindow cur)),
      strptime_YmdH (strftime_YmdH t) = some t := by
  have hf := parseKeys_ok_forall₂ hpk
  have hpw_ts := forall₂_parse_pairwise_ne hnd hf
  have hpw_f : List.Pairwise (fun a b => a ≠ b) (ts.filter (inWindow cur)) :=
    hpw_ts.filter _
  have hperm := List.perm_insertionSort dtLE (ts.filter (inWindow cur))
  have hpw_s : List.Pairwise (fun a b => a ≠ b)
      (List.insertionSort dtLE (ts.filter (inWindow cur))) :=
    (hperm.pairwise_iff (fun h => h.symm)).mpr hpw_f
  have hmem : ∀ t ∈ List.insertionSort dtLE (ts.filter (inWindow cur)),
      strptime_YmdH (strftime_YmdH t) = some t ∧ ValidDT t := by
    intro t ht
    have ht2 := (List.mem_filter.mp (hperm.mem_iff.mp ht)).1
    obtain ⟨k, hk, hpkt⟩ := forall₂_mem_right hf ht2
    refine ⟨?_, strptime_valid hpkt⟩
    rw [strftime_strptime hpkt]
    exact hpkt
  refine ⟨sorted_strict_of_pairwise (List.sorted_insertionSort dtLE _) hpw_s
    (fun t ht => (hmem t ht).2), fun t ht => (hmem t ht).1⟩

/-- The selected keys are strictly sorted ascending by the instant each key
decodes to. -/
theorem selectedKeys_sorted {ks : List String} {cur : Int} {out : List String}
    (hnd : ks.Nodup) (h : selectedKeys ks cur = .ok out) :
    List.Sorted (fun a b => keySeconds a < keySeconds b) out := by
  unfold selectedKeys at h
  cases hpk : parseKeys ks with
  | error e => rw [hpk] at h; exact Except.noConfusion h
  | ok ts =>
    rw [hpk] at h
    injection h with h2
    subst h2
    obtain ⟨hstrict, hrt⟩ := @sortFacts _ _ cur hnd hpk
    refine (List.pairwise_map).mpr (hstrict.imp_of_mem ?_)
    intro a b ha hb hab
    show keySeconds (strftime_YmdH a) < keySeconds (strftime_YmdH b)
    unfold keySeconds
    rw [hrt a ha, hrt b hb]
    simpa using hab

/-- The selection step depends on the catalog keys only as a finite set:
re-ordering a duplicate-free key list does not change its output. -/
theorem selectedKeys_perm {ks1 ks2 : List String} {cur : Int} {out : List String}
    (hperm : ks1.Perm ks2) (hnd : ks1.Nodup)
    (h : selectedKeys ks1 cur = .ok out) : selectedKeys ks2 cur = .ok out := by
  unfold selectedKeys at h
  cases hpk : parseKeys ks1 with
  | error e => rw [hpk] at h; exact Except.noConfusion h
  | ok ts1 =>
    rw [hpk] at h
    injection h with h2
    subst h2
    have hall1 := parseKeys_ok_all_parse hpk
    have hall2 : ∀ k ∈ ks2, strptime_YmdH k ≠ none :=
      fun k hk => hall1 k (hperm.mem_iff.mpr hk)
    have hnd2 : ks2.Nodup := (hperm.nodup_iff).mp hnd
    have hm1 := parseKeys_eq_map hall1
    have hm2 := parseKeys_eq_map hall2
    have hts1 : ts1 = ks1.map (fun k => (strptime_YmdH k).getD (1, 1, 1, 0)) := by
      rw [hpk] at hm1
      injection hm1
    have hpf := hperm.map (fun k => (strptime_YmdH k).getD (1, 1, 1, 0))
    have hpfil := hpf.filter (inWindow cur)
    have hsp :=
      (List.perm_insertionSort dtLE
          ((ks1.map (fun k => (strptime_YmdH k).getD (1, 1, 1, 0))).filter
            (inWindow cur))).trans
        (hpfil.trans
          (List.perm_insertionSort dtLE
            ((ks2.map (fun k => (strptime_YmdH k).getD (1, 1, 1, 0))).filter
              (inWindow cur))).symm)
    have hfacts1 := @sortFacts _ _ cur hnd hm1
    have hfacts2 := @sortFacts _ _ cur hnd2 hm2
    have heq := List.eq_of_perm_of_sorted hsp hfacts1.1 hfacts2.1
    unfold selectedKeys
    rw [hts1]
    rw [hm2]
    exact congrArg Except.ok (congrArg (List.map strftime_YmdH) heq.symm)

/-! ### Lemmas about lookup and ingestion -/

theorem find?_eq_of_nodup_mem {π : Type} {d : List (String × π)} {k : String} {v : π}
    (hnd : (d.map Prod.fst).Nodup) (hmem : (k, v) ∈ d) :
    d.find? (fun e => e.1 == k) = some (k, v) := by
  induction d with
  | nil => exact absurd hmem (List.not_mem_nil _)
  | cons e rest ih =>
    rcases e with ⟨k0, v0⟩
    have hnd2 := List.nodup_cons.mp hnd
    by_cases hb : k0 = k
    · subst hb
      rcases List.mem_cons.mp hmem with h1 | h1
      · rw [← h1]
        simp [List.find?]
      · exact absurd (List.mem_map.mpr ⟨(k0, v), h1, rfl⟩) hnd2.1
    · have hmem2 : (k, v) ∈ rest := by
        rcases List.mem_cons.mp hmem with h1 | h1
        · exact absurd (congrArg Prod.fst h1).symm hb
        · exact h1
      have hbf : (k0 == k) = false := beq_false_of_ne hb
      have hstep : ((k0, v0) :: rest).find? (fun e => e.1 == k) =
          rest.find? (fun e => e.1 == k) := by
        simp [List.find?, hbf]
      rw [hstep]
      exact ih hnd2.2 hmem2

theorem find?_eq_none_of_not_mem {π : Type} {d : List (String × π)} {k : String}
    (h : k ∉ d.map Prod.fst) : d.find? (fun e => e.1 == k) = none := by
  apply List.find?_eq_none.mpr
  intro e he hbe
  exact h (List.mem_map.mpr ⟨e, he, by simpa using hbe⟩)

/-- Dict lookup is determined by the key-path pairs, not their order. -/
theorem lookupPath_perm {π : Type} {d1 d2 : List (String × π)} (hperm : d1.Perm d2)
    (hnd : (d1.map Prod.fst).Nodup) (k : String) : lookupPath d1 k = lookupPath d2 k := by
  by_cases hk : k ∈ d1.map Prod.fst
  · obtain ⟨⟨k0, v⟩, hmemd, hfst⟩ := List.mem_map.mp hk
    have hk0 : k0 = k := hfst
    subst hk0
    have hnd2 : (d2.map Prod.fst).Nodup := ((hperm.map Prod.fst).nodup_iff).mp hnd
    unfold lookupPath
    rw [find?_eq_of_nodup_mem hnd hmemd, find?_eq_of_nodup_mem hnd2 (hperm.mem_iff.mp hmemd)]
  · have hk2 : k ∉ d2.map Prod.fst := fun h => hk (((hperm.map Prod.fst).mem_iff).mpr h)
    unfold lookupPath
    rw [find?_eq_none_of_not_mem hk, find?_eq_none_of_not_mem hk2]

theorem lookupPath_isSome_of_mem {π : Type} {d : List (String × π)} {k : String}
    (h : k ∈ d.map Prod.fst) : ∃ p, lookupPath d k = some p := by
  cases hf : d.find? (fun e => e.1 == k) with
  | none =>
    rw [List.find?_eq_none] at hf
    obtain ⟨⟨k0, v⟩, hm, he⟩ := List.mem_map.mp h
    have hk0 : k0 = k := he
    subst hk0
    exact absurd (by simp) (hf (k0, v) hm)
  | some e =>
    exact ⟨e.2, by unfold lookupPath; rw [hf]; rfl⟩

theorem ingestSelected_congr {π ρ : Type} {d1 d2 : List (String × π)}
    (ingest : π → Option (List ρ)) (h : ∀ k, lookupPath d1 k = lookupPath d2 k) :
    ∀ ks, ingestSelected d1 ingest ks = ingestSelected d2 ingest ks := by
  intro ks
  induction ks with
  | nil => rfl
  | cons k ks ih =>
    unfold ingestSelected
    rw [h k, ih]

theorem ingestSelected_error_of_fail {π ρ : Type} (d : List (String × π))
    (ingest : π → Option (List ρ)) :
    ∀ ks : List String, (∀ k ∈ ks, ∃ p, lookupPath d k = some p) →
    (∃ k ∈ ks, ∃ p, lookupPath d k = some p ∧ ingest p = none) →
    ∃ k p, k ∈ ks ∧ lookupPath d k = some p ∧ ingest p = none ∧
      ingestSelected d ingest ks = .error (.ingestionError k) := by
  intro ks
  induction ks with
  | nil =>
    rintro _ ⟨k, hk, _⟩
    exact absurd hk (List.not_mem_nil _)
  | cons k0 ks ih =>
    intro hlook hfail
    obtain ⟨p0, hp0⟩ := hlook k0 (List.mem_cons_self _ _)
    cases hig : ingest p0 with
    | none =>
      refine ⟨k0, p0, List.mem_cons_self _ _, hp0, hig, ?_⟩
      unfold ingestSelected
      simp only [hp0, hig]
    | some df =>
      obtain ⟨k, hk, p, hlp, hip⟩ := hfail
      rcases List.mem_cons.mp hk with h1 | h1
      · subst h1
        rw [hp0] at hlp
        injection hlp with h2
        subst h2
        rw [hig] at hip
        exact Option.noConfusion hip
      · obtain ⟨k1, p1, hk1, hl1, hi1, hrec⟩ :=
          ih (fun a ha => hlook a (List.mem_cons_of_mem _ ha)) ⟨k, h1, p, hlp, hip⟩
        refine ⟨k1, p1, List.mem_cons_of_mem _ hk1, hl1, hi1, ?_⟩
        unfold ingestSelected
        simp only [hp0, hig, hrec]

/-- The body of `build_seven_day_forecast_data` after a successful window
selection. -/
theorem build_eq_of_selected {π ρ : Type} {d : List (String × π)} {cur : Int}
    {ingest : π → Option (List ρ)} {out : List String}
    (h : selectedKeys (d.map Prod.fst) cur = .ok out) :
    build_seven_day_forecast_data d cur ingest =
      match ingestSelected d ingest out with
      | .error e => e
      | .ok dfs =>
        match pd_concat dfs with
        | some df => .ok df
        | none => .noneReturn := by
  unfold build_seven_day_forecast_data
  rw [h]

/-! ### Claims -/

/-- C1: for every catalog key list and reference instant on which the window
selection step of build_seven_day_forecast_data succeeds, a key is selected
exactly when it is a catalog key whose parsed timestamp satisfies
0 < (parsed - reference).days <= 7 under the floor whole-day difference;
in particular nothing outside this range is ever included. -/
theorem claim1_window_filter {date_keys : List String} {current_date : Int}
    {out : List String} (h : selectedKeys date_keys current_date = .ok out)
    (k : String) :
    k ∈ out ↔ k ∈ date_keys ∧ ∃ t, strptime_YmdH k = some t ∧
      0 < elapsedDays t current_date ∧ elapsedDays t current_date ≤ 7 := by
  rw [mem_selectedKeys_iff h k]
  apply and_congr_right
  intro _
  apply exists_congr
  intro t
  apply and_congr_right
  intro _
  simp only [inWindow, Bool.and_eq_true, decide_eq_true_eq]
  exact ⟨fun hw => ⟨hw.2, hw.1⟩, fun hw => ⟨hw.2, hw.1⟩⟩

/-- Witness for C1 at the boundary scenario: with reference
2024-03-01T00:00, the key 2024030800 is exactly seven whole days ahead and
is selected. -/
theorem claim1_window_filter_witness :
    selectedKeys ["2024030800"] refInstant = .ok ["2024030800"] ∧
    ("2024030800" ∈ ["2024030800"] ↔ "2024030800" ∈ ["2024030800"] ∧
      ∃ t, strptime_YmdH "2024030800" = some t ∧
        0 < elapsedDays t refInstant ∧ elapsedDays t refInstant ≤ 7) :=
  ⟨by decide,
   @claim1_window_filter ["2024030800"] refInstant ["2024030800"] (by decide) "2024030800"⟩

/-- C2 counterexample: on the scenario catalog with reference
2024-03-01T00:00, the window selection is not [A, B]: A = "2024030106" is
2024-03-01 hour 06, only six hours ahead of the reference, so its floor
whole-day difference is 0 and the filter excludes it. -/
theorem claim2_selection_counterexample :
    selectedKeys ["2024030106", "2024030206", "2024030900", "2024022900"] refInstant ≠
      .ok ["2024030106", "2024030206"] := by decide

/-- C2 amended: on the scenario catalog the window selection step selects
exactly the key for B, "2024030206"; A is excluded (whole-day difference 0),
C (8 days ahead) and D (in the past) are excluded. -/
theorem claim2_selection_amended :
    selectedKeys ["2024030106", "2024030206", "2024030900", "2024022900"] refInstant =
      .ok ["2024030206"] := by decide

/-- C3: evaluation of the method at a catalog whose only key lies outside
the window.  The selected-key sequence is empty, and the method catches the
ValueError that pd.concat raises on the empty list and returns None; it does
not fail with an explicit error, although its own docstring advertises a
raised ValueError for this case. -/
theorem claim3_empty_window_behavior :
    build_seven_day_forecast_data [("2024030900", "C")] refInstant
      (fun _ => some [(0 : Nat)]) = .noneReturn := by decide

/-- C4: over a duplicate-free catalog whose window selection succeeds, the
selected keys are sorted strictly ascending by the instant each key decodes
to, and the whole method is independent of catalog iteration order:
any permutation of the same key-path pairs yields the identical outcome. -/
theorem claim4_sorted_and_order_independent {π ρ : Type}
    {d1 d2 : List (String × π)} {cur : Int} {out : List String}
    (ingest : π → Option (List ρ))
    (hnd : (d1.map Prod.fst).Nodup) (hperm : d1.Perm d2)
    (hsel : selectedKeys (d1.map Prod.fst) cur = .ok out) :
    List.Sorted (fun a b => keySeconds a < keySeconds b) out ∧
    build_seven_day_forecast_data d1 cur ingest =
      build_seven_day_forecast_data d2 cur ingest := by
  constructor
  · exact selectedKeys_sorted hnd hsel
  · have hkperm : (d1.map Prod.fst).Perm (d2.map Prod.fst) := hperm.map _
    have hsel2 : selectedKeys (d2.map Prod.fst) cur = .ok out :=
      selectedKeys_perm hkperm hnd hsel
    rw [build_eq_of_selected hsel, build_eq_of_selected hsel2,
      ingestSelected_congr ingest (lookupPath_perm hperm hnd) out]

/-- Witness for C4: a two-entry catalog listed in reverse chronological
order and its chronologically listed permutation give the same outcome, and
the selection is sorted. -/
theorem claim4_witness :
    List.Sorted (fun a b => keySeconds a < keySeconds b) ["2024030206", "2024030306"] ∧
    build_seven_day_forecast_data [("2024030306", "c"), ("2024030206", "b")] refInstant
        (fun _ => some [(0 : Nat)]) =
      build_seven_day_forecast_data [("2024030206", "b"), ("2024030306", "c")] refInstant
        (fun _ => some [(0 : Nat)]) :=
  @claim4_sorted_and_order_independent String Nat
    [("2024030306", "c"), ("2024030206", "b")] [("2024030206", "b"), ("2024030306", "c")]
    refInstant ["2024030206", "2024030306"] (fun _ => some [0])
    (by decide) (by decide) (by decide)

/-- C5: if the ingestion engine fails on any one selected file, the whole
call fails at a selected key whose file fails ingestion, and no dataframe
(in particular no incomplete concatenation) is returned. -/
theorem claim5_ingestion_failure {π ρ : Type} {d : List (String × π)} {cur : Int}
    {ingest : π → Option (List ρ)} {out : List String}
    (hsel : selectedKeys (d.map Prod.fst) cur = .ok out)
    (hfail : ∃ k ∈ out, ∃ p, lookupPath d k = some p ∧ ingest p = none) :
    ∃ k p, k ∈ out ∧ lookupPath d k = some p ∧ ingest p = none ∧
      build_seven_day_forecast_data d cur ingest = .ingestionError k := by
  have hlook : ∀ k ∈ out, ∃ p, lookupPath d k = some p := fun k hk =>
    lookupPath_isSome_of_mem ((mem_selectedKeys_iff hsel k).mp hk).1
  obtain ⟨k, p, hk, hl, hi, hrun⟩ := ingestSelected_error_of_fail d ingest out hlook hfail
  refine ⟨k, p, hk, hl, hi, ?_⟩
  rw [build_eq_of_selected hsel, hrun]

/-- Witness for C5: a one-entry catalog whose file the engine rejects makes
the call fail with the key of that entry. -/
theorem claim5_witness :
    ∃ k p, k ∈ ["2024030206"] ∧ lookupPath [("2024030206", "b")] k = some p ∧
      (fun _ : String => (none : Option (List Nat))) p = none ∧
      build_seven_day_forecast_data [("2024030206", "b")] refInstant
        (fun _ : String => (none : Option (List Nat))) = .ingestionError k :=
  @claim5_ingestion_failure String Nat [("2024030206", "b")] refInstant
    (fun _ => none) ["2024030206"] (by decide)
    ⟨"2024030206", by decide, "b", by decide, rfl⟩

/-- C6: a catalog containing any key that does not parse in the fixed
YYYYMMDDHH format makes the call fail with the parse error of a malformed
key; malformed keys are never silently skipped. -/
theorem claim6_malformed_key {π ρ : Type} {d : List (String × π)} {cur : Int}
    {ingest : π → Option (List ρ)} {k : String}
    (hk : k ∈ d.map Prod.fst) (hbad : strptime_YmdH k = none) :
    ∃ e ∈ d.map Prod.fst, strptime_YmdH e = none ∧
      build_seven_day_forecast_data d cur ingest = .keyParseError e := by
  obtain ⟨e, he, hbe, hpe⟩ := parseKeys_error_of_bad hk hbad
  refine ⟨e, he, hbe, ?_⟩
  unfold build_seven_day_forecast_data selectedKeys
  rw [hpe]

/-- Witness for C6 at the scenario input: the catalog with the single
malformed key "notadate". -/
theorem claim6_witness :
    ∃ e ∈ ["notadate"], strptime_YmdH e = none ∧
      build_seven_day_forecast_data [("notadate", "p")] (0 : Int)
        (fun _ => some [(0 : Nat)]) = .keyParseError e :=
  @claim6_malformed_key String Nat [("notadate", "p")] 0 (fun _ => some [0])
    "notadate" (by decide) (by decide)

/-- C7 counterexample: the method takes no reference parameter and reads
datetime.today() itself, so two invocations against an unchanged catalog and
unchanged ingestor differ when the ambient clock has moved between them
(here from 2024-03-01 to 2024-04-01): the reference instant is ambient
state, not an invocation-time input. -/
theorem claim7_ambient_clock_counterexample :
    buildAtClock (fun n => if n = 0 then refInstant else dtSeconds (2024, 4, 1, 0)) 0
        [("2024030206", "b")] (fun _ => some [(0 : Nat)]) ≠
      buildAtClock (fun n => if n = 0 then refInstant else dtSeconds (2024, 4, 1, 0)) 1
        [("2024030206", "b")] (fun _ => some [(0 : Nat)]) := by decide

/-- C7 amended: the method is deterministic in the ambient clock reading:
two invocations whose datetime.today() values coincide, against the same
catalog and ingestor, produce the identical outcome.  The reference instant
itself is read from the ambient clock rather than supplied by the caller. -/
theorem claim7_deterministic_given_clock {π ρ : Type} (clock1 clock2 : Nat → Int)
    (n1 n2 : Nat) (d : List (String × π)) (ingest : π → Option (List ρ))
    (h : clock1 n1 = clock2 n2) :
    buildAtClock clock1 n1 d ingest = buildAtClock clock2 n2 d ingest := by
  unfold buildAtClock
  rw [h]

/-- Witness for C7: two invocations under a frozen clock coincide. -/
theorem claim7_witness :
    buildAtClock (fun _ => refInstant) 0 [("2024030206", "b")]
        (fun _ => some [(0 : Nat)]) =
      buildAtClock (fun _ => refInstant) 1 [("2024030206", "b")]
        (fun _ => some [(0 : Nat)]) :=
  claim7_deterministic_given_clock (fun _ => refInstant) (fun _ => refInstant) 0 1
    [("2024030206", "b")] (fun _ => some [0]) rfl

/-- C8: whenever the window selection step yields the empty key sequence,
the method returns None (the ValueError of concatenating the empty list is
caught internally) and no exception of any kind escapes. -/
theorem claim8_empty_window_returns_none {π ρ : Type} {d : List (String × π)}
    {cur : Int} (ingest : π → Option (List ρ))
    (h : selectedKeys (d.map Prod.fst) cur = .ok []) :
    build_seven_day_forecast_data d cur ingest = .noneReturn := by
  rw [build_eq_of_selected h]
  rfl

/-- Witness for C8 at an empty catalog. -/
theorem claim8_witness :
    build_seven_day_forecast_data ([] : List (String × String)) refInstant
      (fun _ => some [(0 : Nat)]) = .noneReturn :=
  @claim8_empty_window_returns_none String Nat [] refInstant
    (fun _ => some [0]) (by decide)

/-- C9: a key whose parsed timestamp is strictly after the reference instant
but by less than one full day has floor whole-day difference 0 and is
excluded by the window filter, even though it lies strictly inside the
forward window. -/
theorem claim9_subday_excluded {date_keys : List String} {current_date : Int}
    {out : List String} {k : String} {t : DT}
    (hsel : selectedKeys date_keys current_date = .ok out)
    (hp : strptime_YmdH k = some t)
    (h1 : current_date < dtSeconds t) (h2 : dtSeconds t < current_date + 86400) :
    k ∉ out := by
  intro hk
  obtain ⟨-, t2, hp2, hw⟩ := (mem_selectedKeys_iff hsel k).mp hk
  have ht : t2 = t := by
    rw [hp] at hp2
    injection hp2 with h3
    exact h3.symm
  subst ht
  have hz : elapsedDays t2 current_date = 0 := by
    unfold elapsedDays
    rw [Int.fdiv_eq_ediv _ (by omega)]
    omega
  simp only [inWindow, Bool.and_eq_true, decide_eq_true_eq, hz] at hw
  exact absurd hw.2 (lt_irrefl 0)

/-- Witness for C9: with reference 2024-03-01T00:00 the key 2024030106 (six
hours ahead) is not selected. -/
theorem claim9_witness : "2024030106" ∉ ([] : List String) :=
  @claim9_subday_excluded ["2024030106"] refInstant [] "2024030106" (2024, 3, 1, 6)
    (by decide) (by decide) (by decide) (by decide)

/-- C10 counterexample: on a theta frame with no columns, DataFrame.apply
never invokes the lambda, so the conversion attempt succeeds instead of
raising; the claim that it always raises fails at this input. -/
theorem claim10_empty_frame_counterexample :
    df_apply (@math_degree_lambda Nat) [] = some [] ∧
    df_apply (@math_degree_lambda Nat) [] ≠ none := by
  exact ⟨rfl, fun h => Option.noConfusion h⟩

/-- C10 amended: the conversion attempt raises (and the bare except
suppresses the error) whenever theta has at least one column, and in every
case the theta values used by the plot are exactly those returned by the
ingestion engine. -/
theorem claim10_theta_unchanged {ρ : Type} (theta : List (List ρ)) :
    convert_theta theta = theta ∧
    (theta ≠ [] → df_apply math_degree_lambda theta = none) := by
  constructor
  · cases theta with
    | nil => rfl
    | cons c cs => rfl
  · intro h
    cases theta with
    | nil => exact absurd rfl h
    | cons c cs => rfl

/-- Witness for C10 on a one-column frame. -/
theorem claim10_witness :
    convert_theta [[(3 : Nat)]] = [[3]] ∧
    ([[(3 : Nat)]] ≠ ([] : List (List Nat)) →
      df_apply math_degree_lambda [[(3 : Nat)]] = none) :=
  claim10_theta_unchanged [[3]]

end DfsuPipeline
